import Mathlib

/-!
# Verification of the aggregation pipeline of `src/app.py`

Shallow embedding of the single-file Streamlit dashboard `app.py`.
Python strings are modelled as lists of natural-number code points
(`PyStr`), which matches Python's code-point based string comparison and
lets `str.lower` / `str.strip` be modelled arithmetically (the source data
is ASCII-range; `str.lower` is modelled on the ASCII letters A–Z, and
`str.strip` on the ASCII whitespace characters).  Pandas floating-point
arithmetic is modelled by exact rational arithmetic (`ℚ`); every concrete
value appearing in a witness or counterexample below is exactly
representable as an IEEE double, so the rational model agrees with the
float computation there.  `numpy.round` / `pandas.round` round halfway
cases to the nearest even integer, which is modelled by `rhe`.

A pandas `DataFrame` restricted to the four required columns is modelled
as a `List Row`; a missing (NaN) cell is `Option.none`.
-/

namespace ArcpointDashboard

/-- Python strings as lists of Unicode code points. -/
abbrev PyStr := List Nat

/-- `str.lower` on one code point (ASCII model): A–Z (65–90) map to a–z. -/
def lowerChar (c : Nat) : Nat := if 65 ≤ c ∧ c ≤ 90 then c + 32 else c

/-- Whitespace test used by `str.strip` (ASCII whitespace model). -/
def isSpace (c : Nat) : Bool := c == 32 || c == 9 || c == 10 || c == 13 || c == 11 || c == 12

/-- `Series.str.lower()` : lower-case every character. -/
def pyLower (s : PyStr) : PyStr := s.map lowerChar

/-- `Series.str.strip()` : drop leading and trailing whitespace. -/
def pyStrip (s : PyStr) : PyStr := ((s.dropWhile isSpace).reverse.dropWhile isSpace).reverse

/-- `app.py` lines 48–49: `.astype(str).str.lower().str.strip()`
(lower-case first, then strip, as in the source). -/
def normalize (s : PyStr) : PyStr := pyStrip (pyLower s)

/-- `astype(str)` on a cell: a missing value (NaN) is rendered as the
literal string `"nan"` (code points 110, 97, 110). -/
def pyStrOf : Option PyStr → PyStr
  | some s => s
  | none => [110, 97, 110]

/-- Python string `<` : lexicographic comparison of code points. -/
def pyLt : PyStr → PyStr → Bool
  | [], [] => false
  | [], _ :: _ => true
  | _ :: _, [] => false
  | a :: s, b :: t => if a < b then true else if b < a then false else pyLt s t

/-- One row of the uploaded spreadsheet, restricted to the four required
columns (`df[required_columns]`, line 27). `none` models a NaN cell. -/
structure Row where
  franchisee : Option PyStr
  sub_client : Option PyStr
  test_name : Option PyStr
  lab_partner : Option PyStr
deriving DecidableEq, Repr

/-- Line 22: `required_columns = ['Franchisee', 'Sub Client', 'test name', 'Lab Partner']`. -/
def required_columns : List String :=
  ["Franchisee", "Sub Client", "test name", "Lab Partner"]

/-- The two ways loading stops with a user-facing message instead of
producing a dataset: the missing-columns `st.error` (line 24, which names
the listed columns) and the empty-after-dropna `st.warning` (line 30). -/
inductive LoadError where
  | SchemaError (named : List String)
  | EmptyDatasetError
deriving DecidableEq, Repr

/-- Line 27 row predicate: `dropna(subset=['Franchisee', 'test name'])`
keeps a row iff both cells are non-missing (it does NOT trim strings). -/
def validRow (r : Row) : Bool := r.franchisee.isSome && r.test_name.isSome

/-- Line 27: `df.dropna(subset=['Franchisee', 'test name'])`. -/
def dropInvalid (rows : List Row) : List Row := rows.filter validRow

/-- Lines 22–31: check all required column names are present in the
uploaded schema (`cols`), drop rows with missing franchisee/test name,
stop if nothing remains. -/
def load (cols : List String) (rows : List Row) : Except LoadError (List Row) :=
  if required_columns.all (fun c => cols.contains c) then
    let d := dropInvalid rows
    if d.isEmpty then .error .EmptyDatasetError else .ok d
  else .error (.SchemaError required_columns)

/-! ## Generic counting and stable sorting

pandas `value_counts` produces the distinct values with their
multiplicities, ordered by descending count.  Its tie order, and the tie
order of `sort_values`, are modelled by a stable insertion sort (so ties
keep first-appearance order), which matches pandas on the small inputs
used in the witnesses below. -/

/-- Number of occurrences of `k` in `xs`. -/
def countOf [DecidableEq α] (xs : List α) (k : α) : Nat :=
  (xs.filter (fun y => y == k)).length

/-- Distinct elements of a list in order of first appearance, skipping
anything already in `seen`. -/
def dedupFirstAux [DecidableEq α] : List α → List α → List α
  | [], _ => []
  | x :: xs, seen =>
    if seen.contains x then dedupFirstAux xs seen else x :: dedupFirstAux xs (x :: seen)

/-- Distinct elements of a list in order of first appearance. -/
def dedupFirst [DecidableEq α] (xs : List α) : List α := dedupFirstAux xs []

/-- Stable insertion for `sortBy`: `a` goes before the first element it is
strictly `lt`-below, so equal elements keep their original order. -/
def insertBy (lt : α → α → Bool) (a : α) : List α → List α
  | [] => [a]
  | b :: bs => if lt a b then a :: b :: bs else b :: insertBy lt a bs

/-- Stable insertion sort by a strict comparison. -/
def sortBy (lt : α → α → Bool) : List α → List α
  | [] => []
  | a :: as => insertBy lt a (sortBy lt as)

/-- `Series.value_counts()` : (value, count) pairs, descending by count,
ties in first-appearance order (stable model). -/
def valueCounts [DecidableEq α] (xs : List α) : List (α × Nat) :=
  sortBy (fun p q => q.2 < p.2) ((dedupFirst xs).map (fun k => (k, countOf xs k)))

/-- Sum of the count column of a (key, count) table. -/
def sumCounts (l : List (α × Nat)) : Nat := (l.map (fun p => p.2)).sum

/-! ## Derived tables -/

/-- Lines 62/86: `filtered_df['Franchisee'].value_counts()` followed by
`sort_values('Sample Volume', ascending=True)`.  `value_counts` skips NaN
cells, hence the `filterMap`.  (The joins at lines 73/76 add columns but
neither add, remove nor reorder rows, so the (name, count) projection is
taken directly.) -/
def volume_by_franchisee (d : List Row) : List (PyStr × Nat) :=
  sortBy (fun p q => p.2 < q.2) (valueCounts (d.filterMap (fun r => r.franchisee)))

/-- Line 137: `filtered_df['test name'].value_counts().head(top_n).sort_values(ascending=True)`. -/
def test_counts (d : List Row) (top_n : Nat) : List (PyStr × Nat) :=
  sortBy (fun p q => p.2 < q.2) ((valueCounts (d.filterMap (fun r => r.test_name))).take top_n)

/-- Line 153: `filtered_df['Lab Partner'].value_counts().sort_values(ascending=True)`.
`value_counts` drops NaN lab partners (its default `dropna=True`). -/
def lab_counts (d : List Row) : List (PyStr × Nat) :=
  sortBy (fun p q => p.2 < q.2) (valueCounts (d.filterMap (fun r => r.lab_partner)))

/-- Line 50: `'Sub Account Used' if row['Franchisee_norm'] != row['Sub_Client_norm']
else 'Direct Account'`, as a boolean (`true` = "Sub Account Used"). -/
def differs (r : Row) : Bool :=
  normalize (pyStrOf r.franchisee) != normalize (pyStrOf r.sub_client)

/-- Records of franchisee `f` (exact cell equality: `groupby('Franchisee')`
groups on the raw, un-normalized column) with status "Sub Account Used". -/
def differsCount (d : List Row) (f : PyStr) : Nat :=
  (d.filter (fun r => r.franchisee == some f && differs r)).length

/-- All records of franchisee `f` (size of its `groupby` group). -/
def totalCount (d : List Row) (f : PyStr) : Nat :=
  (d.filter (fun r => r.franchisee == some f)).length

/-- Round to the nearest integer, halfway cases to the even neighbour:
the rounding used by `numpy.round` and hence `pandas` `.round`. -/
def rhe (x : ℚ) : ℤ :=
  if x - ⌊x⌋ < 1/2 then ⌊x⌋
  else if 1/2 < x - ⌊x⌋ then ⌊x⌋ + 1
  else if 2 ∣ ⌊x⌋ then ⌊x⌋ else ⌊x⌋ + 1

/-- `.round(2)` : round to 2 decimal places (halfway to even). -/
def round2 (x : ℚ) : ℚ := (rhe (x * 100) : ℚ) / 100

/-- Lines 54–58: per-franchisee `% Sub Account Used`.
`value_counts(normalize=True)` gives `differsCount / totalCount`; if the
`'Sub Account Used'` column exists (some record anywhere differs) the
column is `(fraction * 100).round(2)`, otherwise it is set to `0.0`.
(The join at line 76 and the `fillna(0.0)` at line 79 leave these values
unchanged, since both tables range over the same franchisee set.) -/
def pctSubUsed (d : List Row) (f : PyStr) : ℚ :=
  if d.any differs then
    round2 ((differsCount d f : ℚ) / (totalCount d f : ℚ) * 100)
  else 0

/-- The `% Sub Account Used` table: one entry per distinct franchisee
(`groupby` sorts its keys ascending). -/
def franchiseePctTable (d : List Row) : List (PyStr × ℚ) :=
  sortBy (fun p q => pyLt p.1 q.1)
    ((dedupFirst (d.filterMap (fun r => r.franchisee))).map (fun f => (f, pctSubUsed d f)))

/-! ## Top tests per franchisee (lines 66 and 188) -/

/-- The (Franchisee, test name) key of a row, skipped when either cell is
NaN (as `groupby` does). -/
def ftvKey (r : Row) : Option (PyStr × PyStr) :=
  match r.franchisee, r.test_name with
  | some f, some t => some (f, t)
  | _, _ => none

/-- Lexicographic order on (Franchisee, test name) keys, as `groupby`
sorts its group keys. -/
def keyLt (p q : PyStr × PyStr) : Bool :=
  pyLt p.1 q.1 || (p.1 == q.1 && pyLt p.2 q.2)

/-- Line 66: `filtered_df.groupby(['Franchisee', 'test name']).size()` —
one row per distinct key, sorted ascending by (franchisee, test name). -/
def franchisee_test_volume (d : List Row) : List ((PyStr × PyStr) × Nat) :=
  sortBy (fun p q => keyLt p.1 q.1)
    ((dedupFirst (d.filterMap ftvKey)).map (fun k => (k, countOf (d.filterMap ftvKey) k)))

/-- The rows of `franchisee_test_volume` belonging to franchisee `f`, as
(test name, count) pairs, in table order. -/
def groupOf (d : List Row) (f : PyStr) : List (PyStr × Nat) :=
  ((franchisee_test_volume d).filter (fun p => p.1.1 == f)).map (fun p => (p.1.2, p.2))

/-- `rank(method='first', ascending=False)` over a group traversed in
table order: the rank of an entry is 1 + (earlier entries with count ≥
its count) + (later entries with count > its count). -/
def ranksAux (seen : List (PyStr × Nat)) : List (PyStr × Nat) → List ((PyStr × Nat) × Nat)
  | [] => []
  | p :: rest =>
    (p, 1 + (seen.filter (fun q => p.2 ≤ q.2)).length
          + (rest.filter (fun q => p.2 < q.2)).length)
      :: ranksAux (p :: seen) rest

/-- Line 188, restricted to one franchisee: the group's entries whose
"first"-method descending rank is at most 5, in table order. -/
def top_tests_per_franchisee (d : List Row) (f : PyStr) : List (PyStr × Nat) :=
  ((ranksAux [] (groupOf d f)).filter (fun pr => pr.2 ≤ 5)).map (fun pr => pr.1)

/-- Line 264: `filtered_df.head(500)` — the data context handed to the
chat-completion collaborator. -/
def chat_data_context (d : List Row) : List Row := d.take 500

/-- `EmptySelectionError` of spec §7. -/
inductive FilterError where
  | EmptySelectionError
deriving DecidableEq, Repr

/-- Modelled from the spec: the `filter` operation of §4.1 is absent from
this variant of the dashboard (line 40 assigns the full dataset to
`filtered_df` with no filter widgets), so it is modelled from the spec's
words: it keeps the records whose `test_name` is among the chosen test
names AND whose `franchisee` is among the chosen franchisee names, and an
empty selection on either side is rejected with `EmptySelectionError`
before any aggregation can run (§7 caller-side validation). -/
def filterDataset (d : List Row) (testNames franchiseeNames : List PyStr) :
    Except FilterError (List Row) :=
  if testNames.isEmpty || franchiseeNames.isEmpty then .error .EmptySelectionError
  else .ok (d.filter (fun r =>
    testNames.contains (pyStrOf r.test_name) && franchiseeNames.contains (pyStrOf r.franchisee)))

/-! ## Spec-side definitions used only to compare against the code -/

/-- Taken from the spec's words, for comparison with the code's `.round(2)`:
"rounded half-up to 2 decimals". -/
def roundHalfUp2 (x : ℚ) : ℚ := ((⌊x * 100 + 1/2⌋ : ℤ) : ℚ) / 100

/-- Taken from the spec's words, for comparison with `groupOf`: the
per-franchisee (test, count) table with ties positioned by FIRST-SEEN row
order within that franchisee's records (not sorted by test name). -/
def groupFirstSeen (d : List Row) (f : PyStr) : List (PyStr × Nat) :=
  let tests := (d.filter (fun r => r.franchisee == some f)).filterMap (fun r => r.test_name)
  (dedupFirst tests).map (fun t => (t, countOf tests t))

/-- Taken from the spec's words: top-5 selection where equal counts are
tie-broken by first-seen order in the source data. -/
def topTestsFirstSeen (d : List Row) (f : PyStr) : List (PyStr × Nat) :=
  ((ranksAux [] (groupFirstSeen d f)).filter (fun pr => pr.2 ≤ 5)).map (fun pr => pr.1)

/-! ## Permutation and counting lemmas -/

theorem perm_insertBy (lt : α → α → Bool) (a : α) (l : List α) :
    (insertBy lt a l).Perm (a :: l) := by
  induction l with
  | nil => exact List.Perm.refl _
  | cons b bs ih =>
    simp only [insertBy]
    split
    · exact List.Perm.refl _
    · exact (ih.cons b).trans (List.Perm.swap a b bs)

theorem perm_sortBy (lt : α → α → Bool) (l : List α) : (sortBy lt l).Perm l := by
  induction l with
  | nil => exact List.Perm.refl _
  | cons a as ih => exact (perm_insertBy lt a (sortBy lt as)).trans (ih.cons a)

theorem sumCounts_of_perm {l m : List (α × Nat)} (h : l.Perm m) : sumCounts l = sumCounts m := by
  unfold sumCounts
  exact (h.map _).sum_eq

theorem mem_dedupFirstAux [DecidableEq α] (a : α) :
    ∀ (xs seen : List α), a ∈ dedupFirstAux xs seen ↔ a ∈ xs ∧ a ∉ seen := by
  intro xs
  induction xs with
  | nil => intro seen; simp [dedupFirstAux]
  | cons x xs ih =>
    intro seen
    simp only [dedupFirstAux]
    split
    · rename_i hseen
      rw [List.contains_iff_exists_mem_beq] at hseen
      rcases hseen with ⟨y, hy, hxy⟩
      rw [beq_iff_eq] at hxy
      subst hxy
      rw [ih]
      simp only [List.mem_cons]
      constructor
      · rintro ⟨h1, h2⟩; exact ⟨Or.inr h1, h2⟩
      · rintro ⟨rfl | h1, h2⟩
        · exact absurd hy h2
        · exact ⟨h1, h2⟩
    · rename_i hseen
      have hxs : x ∉ seen := by
        intro hmem
        exact hseen (List.contains_iff_exists_mem_beq.mpr ⟨x, hmem, beq_self_eq_true x⟩)
      simp only [List.mem_cons, ih, List.mem_cons]
      constructor
      · rintro (rfl | ⟨h1, h2⟩)
        · exact ⟨Or.inl rfl, hxs⟩
        · refine ⟨Or.inr h1, fun hmem => h2 (Or.inr hmem)⟩
      · rintro ⟨rfl | h1, h2⟩
        · exact Or.inl rfl
        · by_cases hax : a = x
          · exact Or.inl hax
          · exact Or.inr ⟨h1, fun hmem => hmem.elim hax h2⟩

theorem nodup_dedupFirstAux [DecidableEq α] :
    ∀ (xs seen : List α), (dedupFirstAux xs seen).Nodup := by
  intro xs
  induction xs with
  | nil => intro seen; simp [dedupFirstAux]
  | cons x xs ih =>
    intro seen
    simp only [dedupFirstAux]
    split
    · exact ih seen
    · refine List.Nodup.cons (fun hmem => ?_) (ih (x :: seen))
      exact ((mem_dedupFirstAux x xs (x :: seen)).mp hmem).2 (List.mem_cons_self x seen)

theorem mem_dedupFirst [DecidableEq α] {a : α} {xs : List α} :
    a ∈ dedupFirst xs ↔ a ∈ xs := by
  rw [dedupFirst, mem_dedupFirstAux]
  simp

theorem nodup_dedupFirst [DecidableEq α] (xs : List α) : (dedupFirst xs).Nodup :=
  nodup_dedupFirstAux xs []

theorem countOf_nil [DecidableEq α] (k : α) : countOf ([] : List α) k = 0 := rfl

theorem countOf_cons [DecidableEq α] (x : α) (xs : List α) (k : α) :
    countOf (x :: xs) k = (if x = k then 1 else 0) + countOf xs k := by
  by_cases h : x = k <;> simp [countOf, List.filter_cons, h, Nat.add_comm]

theorem sum_indicator_zero [DecidableEq α] (x : α) (keys : List α) (hx : x ∉ keys) :
    (keys.map (fun k => if x = k then 1 else 0)).sum = 0 := by
  induction keys with
  | nil => rfl
  | cons k ks ih =>
    simp only [List.map_cons, List.sum_cons]
    rw [if_neg (fun h => hx (by rw [h]; exact List.mem_cons_self k ks)),
      ih (fun h => hx (List.mem_cons_of_mem k h))]

theorem sum_indicator_one [DecidableEq α] (x : α) (keys : List α)
    (hnd : keys.Nodup) (hx : x ∈ keys) :
    (keys.map (fun k => if x = k then 1 else 0)).sum = 1 := by
  induction keys with
  | nil => cases hx
  | cons k ks ih =>
    simp only [List.map_cons, List.sum_cons]
    rcases List.mem_cons.mp hx with rfl | hmem
    · rw [if_pos rfl, sum_indicator_zero x ks (List.nodup_cons.mp hnd).1]
    · rw [if_neg (fun h => (List.nodup_cons.mp hnd).1 (by rw [← h]; exact hmem)),
        ih (List.nodup_cons.mp hnd).2 hmem]

theorem sum_countOf (xs keys : List α) [DecidableEq α]
    (hnd : keys.Nodup) (hall : ∀ x ∈ xs, x ∈ keys) :
    (keys.map (countOf xs)).sum = xs.length := by
  induction xs with
  | nil =>
    have h0 : keys.map (countOf ([] : List α)) = keys.map (fun _ => 0) :=
      List.map_congr_left (fun k _ => rfl)
    rw [h0]
    simp
  | cons x xs ih =>
    have hx : x ∈ keys := hall x (List.mem_cons_self x xs)
    have hmap : keys.map (countOf (x :: xs)) =
        keys.map (fun k => (if x = k then 1 else 0) + countOf xs k) :=
      List.map_congr_left (fun k _ => countOf_cons x xs k)
    rw [hmap, List.sum_map_add, sum_indicator_one x keys hnd hx,
      ih (fun y hy => hall y (List.mem_cons_of_mem x hy))]
    simp [List.length_cons, Nat.add_comm]

theorem sumCounts_valueCounts [DecidableEq α] (xs : List α) :
    sumCounts (valueCounts xs) = xs.length := by
  rw [valueCounts, sumCounts_of_perm (perm_sortBy _ _)]
  unfold sumCounts
  rw [List.map_map]
  have : ((fun p : α × Nat => p.2) ∘ fun k => (k, countOf xs k)) = countOf xs := rfl
  rw [this, sum_countOf xs (dedupFirst xs) (nodup_dedupFirst xs)
    (fun x hx => mem_dedupFirst.mpr hx)]

theorem length_filterMap_of_isSome (g : α → Option β) (d : List α)
    (h : ∀ r ∈ d, (g r).isSome = true) : (d.filterMap g).length = d.length := by
  induction d with
  | nil => rfl
  | cons r rs ih =>
    have hr := h r (List.mem_cons_self r rs)
    rcases Option.isSome_iff_exists.mp hr with ⟨b, hb⟩
    rw [List.filterMap_cons, hb]
    simp only [List.length_cons]
    rw [ih (fun x hx => h x (List.mem_cons_of_mem r hx))]

theorem length_filterMap_eq_filter (g : α → Option β) (d : List α) :
    (d.filterMap g).length = (d.filter (fun r => (g r).isSome)).length := by
  induction d with
  | nil => rfl
  | cons r rs ih =>
    rw [List.filterMap_cons, List.filter_cons]
    cases hg : g r with
    | none => simp only [hg, Option.isSome_none, cond_false, if_neg]; simpa using ih
    | some b => simp only [hg, Option.isSome_some, if_pos]; simpa using ih

/-! ## Sortedness of the ascending count sort -/

theorem head_insertBy (lt : α → α → Bool) (a : α) (l : List α) :
    (insertBy lt a l).head? = some a ∨ (insertBy lt a l).head? = l.head? := by
  cases l with
  | nil => exact Or.inl rfl
  | cons b bs =>
    simp only [insertBy]
    split
    · exact Or.inl rfl
    · exact Or.inr rfl

theorem chain_le_insertBy (a : α × Nat) (l : List (α × Nat))
    (h : List.Chain' (fun p q : α × Nat => p.2 ≤ q.2) l) :
    List.Chain' (fun p q : α × Nat => p.2 ≤ q.2) (insertBy (fun p q => p.2 < q.2) a l) := by
  induction l with
  | nil => simp [insertBy]
  | cons b bs ih =>
    simp only [insertBy]
    split
    · rename_i hlt
      exact List.chain'_cons.mpr ⟨Nat.le_of_lt (of_decide_eq_true hlt), h⟩
    · rename_i hge
      have hba : b.2 ≤ a.2 := Nat.le_of_not_lt (by simpa using hge)
      have hbs := (List.chain'_cons'.mp h).2
      refine List.chain'_cons'.mpr ⟨?_, ih hbs⟩
      intro y hy
      rcases head_insertBy (fun p q : α × Nat => p.2 < q.2) a bs with he | he
      · rw [he] at hy
        cases hy
        exact hba
      · rw [he] at hy
        exact (List.chain'_cons'.mp h).1 y hy

theorem chain_le_sortBy (l : List (α × Nat)) :
    List.Chain' (fun p q : α × Nat => p.2 ≤ q.2) (sortBy (fun p q => p.2 < q.2) l) := by
  induction l with
  | nil => simp [sortBy]
  | cons a as ih => exact chain_le_insertBy a _ ih

/-! ## Claim C1 -/

/-- C1 (amended): for a valid Dataset (all franchisee cells present, as
`load` guarantees), the `VolumeByFranchisee` counts sum to the number of
records, while the `LabPartnerUsage` counts sum to the number of records
whose lab partner is PRESENT — `value_counts` drops records with a
missing lab partner instead of putting them in a "missing" bucket. -/
theorem claim_C1_sums (d : List Row) (h : ∀ r ∈ d, r.franchisee.isSome = true) :
    sumCounts (volume_by_franchisee d) = d.length ∧
    sumCounts (lab_counts d) = (d.filter (fun r => r.lab_partner.isSome)).length := by
  constructor
  · rw [volume_by_franchisee, sumCounts_of_perm (perm_sortBy _ _), sumCounts_valueCounts,
      length_filterMap_of_isSome _ _ h]
  · rw [lab_counts, sumCounts_of_perm (perm_sortBy _ _), sumCounts_valueCounts,
      length_filterMap_eq_filter]

/-- Witness dataset for C1: two franchisees, one record with a missing
lab partner. -/
def dW1 : List Row :=
  [ ⟨some [65], some [65], some [84], some [76]⟩,
    ⟨some [66], some [66], some [84], none⟩ ]

theorem claim_C1_sums_witness :
    sumCounts (volume_by_franchisee dW1) = dW1.length ∧
    sumCounts (lab_counts dW1) = (dW1.filter (fun r => r.lab_partner.isSome)).length :=
  claim_C1_sums dW1 (by decide)

/-- Counterexample dataset for C1: a single record whose lab partner is
missing. -/
def dCx1 : List Row := [⟨some [65], some [65], some [84], none⟩]

/-- C1 counterexample: with one record whose `lab_partner` is absent, the
`LabPartnerUsage` counts sum to 0, not to `len(dataset) = 1`, and the
table has no "missing" bucket (it is empty): the record is dropped. -/
theorem claim_C1_counterexample :
    sumCounts (lab_counts dCx1) ≠ dCx1.length ∧ lab_counts dCx1 = [] := by
  constructor
  · decide
  · decide

/-! ## Claim C2 -/

/-- C2 (amended): `load` drops exactly the rows whose `franchisee` or
`test_name` cell is MISSING (NaN); `dropna` does not trim strings, so a
row whose cells are present is kept — and contributes to the derived
tables — even when a value is empty after trimming (e.g. whitespace-only). -/
theorem claim_C2_dropna (cols : List String) (rows d : List Row)
    (h : load cols rows = .ok d) :
    ∀ r, r ∈ d ↔ r ∈ rows ∧ r.franchisee.isSome = true ∧ r.test_name.isSome = true := by
  intro r
  simp only [load] at h
  split at h
  · split at h
    · exact absurd h (by simp)
    · have hd : d = dropInvalid rows := by
        injection h with h
        exact h.symm
      subst hd
      simp [dropInvalid, List.mem_filter, validRow, Bool.and_eq_true]
  · exact absurd h (by simp)

/-- A row whose franchisee cell holds the whitespace-only string `" "`. -/
def rWs2 : Row := ⟨some [32], some [65], some [84], some [76]⟩

/-- Rows for the C2 witness: the whitespace row plus one row with a
missing franchisee (which `dropna` removes). -/
def rowsW2 : List Row := [rWs2, ⟨none, some [65], some [84], some [76]⟩]

theorem claim_C2_dropna_witness :
    rWs2 ∈ dropInvalid rowsW2 ∧
    (⟨none, some [65], some [84], some [76]⟩ : Row) ∉ dropInvalid rowsW2 := by
  have h1 := claim_C2_dropna required_columns rowsW2 (dropInvalid rowsW2) rfl rWs2
  have h2 := claim_C2_dropna required_columns rowsW2 (dropInvalid rowsW2) rfl
    ⟨none, some [65], some [84], some [76]⟩
  constructor
  · exact h1.mpr (by decide)
  · intro hmem
    exact absurd (h2.mp hmem).2.1 (by decide)

/-- C2 counterexample: a row whose franchisee is the whitespace-only
string `" "` (empty after trimming) is NOT dropped by `load`, and it
contributes to `VolumeByFranchisee` (as the untrimmed name `" "`). -/
theorem claim_C2_counterexample :
    load required_columns [rWs2] = .ok [rWs2] ∧
    volume_by_franchisee [rWs2] = [([32], 1)] := by
  constructor
  · rfl
  · decide

/-! ## Claim C3 -/

/-- C3 (amended): every global count-based table produced by the code —
`VolumeByFranchisee`, `TopTests`, `LabPartnerUsage` — is ordered
ASCENDING by count (the code sorts `ascending=True` for its horizontal
bar charts), not descending, and equal counts are not reordered by name. -/
theorem claim_C3_ascending (d : List Row) (n : Nat) :
    List.Chain' (fun p q : PyStr × Nat => p.2 ≤ q.2) (volume_by_franchisee d) ∧
    List.Chain' (fun p q : PyStr × Nat => p.2 ≤ q.2) (test_counts d n) ∧
    List.Chain' (fun p q : PyStr × Nat => p.2 ≤ q.2) (lab_counts d) :=
  ⟨chain_le_sortBy _, chain_le_sortBy _, chain_le_sortBy _⟩

/-- Counterexample dataset for C3: franchisees Z, A, A, Y in that order. -/
def dEx3 : List Row :=
  [ ⟨some [90], some [90], some [84], some [76]⟩,
    ⟨some [65], some [65], some [84], some [76]⟩,
    ⟨some [65], some [65], some [84], some [76]⟩,
    ⟨some [89], some [89], some [84], some [76]⟩ ]

/-- C3 counterexample: on franchisees Z, A, A, Y the produced table is
`[(Z,1), (Y,1), (A,2)]` — ascending by count, with the tie Z before Y in
first-appearance order — so it is NOT ordered descending by count with
ties ascending by name (that would be `[(A,2), (Y,1), (Z,1)]`). -/
theorem claim_C3_counterexample :
    volume_by_franchisee dEx3 = [([90], 1), ([89], 1), ([65], 2)] ∧
    ¬ List.Chain' (fun p q : PyStr × Nat => q.2 < p.2 ∨ (p.2 = q.2 ∧ pyLt p.1 q.1 = true))
        (volume_by_franchisee dEx3) := by
  refine ⟨by decide, fun h => ?_⟩
  rw [show volume_by_franchisee dEx3 = [([90], 1), ([89], 1), ([65], 2)] by decide] at h
  rcases (List.chain'_cons.mp h).1 with h1 | ⟨-, h2⟩
  · exact absurd h1 (by decide)
  · exact absurd h2 (by decide)

/-! ## Claim C7 -/

/-- C7: `load` fails with the schema error (a user-facing message, not a
crash) whenever a required column is absent, and the error names every
missing column (the message lists all four required column names); when
every required column is present it proceeds regardless of the uploaded
column order (only membership matters), succeeding unless zero valid rows
remain after `dropna`, in which case it fails with the empty-dataset
error. -/
theorem claim_C7_load (cols cols' : List String) (rows : List Row) :
    ((∃ c ∈ required_columns, c ∉ cols) →
      ∃ named, load cols rows = .error (.SchemaError named) ∧
        ∀ c ∈ required_columns, c ∉ cols → c ∈ named) ∧
    ((∀ c ∈ required_columns, c ∈ cols) →
      load cols rows = if (dropInvalid rows).isEmpty then .error .EmptyDatasetError
        else .ok (dropInvalid rows)) ∧
    ((∀ c, c ∈ cols ↔ c ∈ cols') → load cols rows = load cols' rows) := by
  refine ⟨?_, ?_, ?_⟩
  · rintro ⟨c0, hc0, hmiss⟩
    refine ⟨required_columns, ?_, fun c hc _ => hc⟩
    rw [load, if_neg]
    intro hall
    rw [List.all_eq_true] at hall
    exact hmiss (List.elem_iff.mp (hall c0 hc0))
  · intro hall
    have hcond : (required_columns.all fun c => cols.contains c) = true := by
      rw [List.all_eq_true]
      exact fun c hc => List.elem_iff.mpr (hall c hc)
    rw [load, if_pos hcond]
  · intro hiff
    have hcond : (required_columns.all fun c => cols.contains c)
        = (required_columns.all fun c => cols'.contains c) := by
      apply Bool.coe_iff_coe.mp
      rw [List.all_eq_true, List.all_eq_true]
      constructor
      · exact fun hall c hc => List.elem_iff.mpr ((hiff c).mp (List.elem_iff.mp (hall c hc)))
      · exact fun hall c hc => List.elem_iff.mpr ((hiff c).mpr (List.elem_iff.mp (hall c hc)))
    rw [load, load, hcond]

/-- Concrete schemas for the C7 witness: one missing `Franchisee`, two
orderings of the full required set. -/
def colsMissing : List String := ["Sub Client", "test name", "Lab Partner"]

/-- One valid row, for the C7 witness. -/
def dW7 : List Row := [⟨some [65], some [65], some [84], some [76]⟩]

theorem claim_C7_load_witness :
    (∃ named, load colsMissing dW7 = .error (.SchemaError named) ∧
      ∀ c ∈ required_columns, c ∉ colsMissing → c ∈ named) ∧
    load ["Lab Partner", "test name", "Sub Client", "Franchisee"] dW7 = .ok dW7 ∧
    load required_columns ([] : List Row) = .error .EmptyDatasetError := by
  refine ⟨(claim_C7_load colsMissing colsMissing dW7).1 ?_, ?_, ?_⟩
  · exact ⟨"Franchisee", by decide, by decide⟩
  · rw [(claim_C7_load ["Lab Partner", "test name", "Sub Client", "Franchisee"]
      required_columns dW7).2.1 (by decide)]
    rfl
  · rw [(claim_C7_load required_columns required_columns ([] : List Row)).2.1 (by decide)]
    rfl

/-! ## Rounding lemmas for claim C4 -/

theorem rhe_nonneg (x : ℚ) (hx : 0 ≤ x) : 0 ≤ rhe x := by
  have h0 : (0 : ℤ) ≤ ⌊x⌋ := Int.floor_nonneg.mpr hx
  unfold rhe
  split
  · exact h0
  · split
    · omega
    · split <;> omega

theorem rhe_le (x : ℚ) (B : ℤ) (hx : x ≤ (B : ℚ)) : rhe x ≤ B := by
  have hfl : ⌊x⌋ ≤ B := by
    have := Int.floor_le_floor hx
    rwa [Int.floor_intCast] at this
  by_cases heq : ⌊x⌋ = B
  · have hxB : x = (B : ℚ) := le_antisymm hx (by rw [← heq]; exact Int.floor_le x)
    rw [hxB]
    unfold rhe
    rw [Int.floor_intCast]
    norm_num
  · have hlt : ⌊x⌋ + 1 ≤ B := by omega
    unfold rhe
    split
    · exact hfl
    · split
      · exact hlt
      · split <;> omega

theorem round2_nonneg (x : ℚ) (hx : 0 ≤ x) : 0 ≤ round2 x := by
  unfold round2
  have h := rhe_nonneg (x * 100) (by positivity)
  positivity

theorem round2_le_100 (x : ℚ) (hx : x ≤ 100) : round2 x ≤ 100 := by
  unfold round2
  have h : rhe (x * 100) ≤ (10000 : ℤ) := by
    apply rhe_le
    push_cast
    nlinarith
  rw [div_le_iff₀ (by norm_num : (0 : ℚ) < 100)]
  calc ((rhe (x * 100) : ℚ)) ≤ ((10000 : ℤ) : ℚ) := by exact_mod_cast h
    _ = 100 * 100 := by norm_num

theorem rhe_zero : rhe 0 = 0 := by norm_num [rhe]

theorem differsCount_le_totalCount (d : List Row) (f : PyStr) :
    differsCount d f ≤ totalCount d f := by
  unfold differsCount totalCount
  have heq : d.filter (fun r => r.franchisee == some f && differs r)
      = (d.filter (fun r => r.franchisee == some f)).filter differs := by
    rw [List.filter_filter]
    exact List.filter_congr (fun r _ => Bool.and_comm (r.franchisee == some f) (differs r))
  rw [heq]
  exact List.length_filter_le _ _

theorem totalCount_pos (d : List Row) (f : PyStr)
    (hf : f ∈ d.filterMap (fun r => r.franchisee)) : 0 < totalCount d f := by
  rcases List.mem_filterMap.mp hf with ⟨r, hr, hfr⟩
  unfold totalCount
  have hmem : r ∈ d.filter (fun r => r.franchisee == some f) :=
    List.mem_filter.mpr ⟨hr, by rw [hfr]; exact beq_self_eq_true _⟩
  exact List.length_pos.mpr (List.ne_nil_of_mem hmem)

theorem differsCount_of_no_differs (d : List Row) (f : PyStr)
    (h : d.any differs = false) : differsCount d f = 0 := by
  unfold differsCount
  rw [List.filter_eq_nil_iff.mpr]
  · rfl
  · intro r hr
    rw [List.any_eq_false] at h
    simp [h r hr]

/-! ## Claim C4 -/

/-- C4 (amended): `FranchiseeSubAccountPercent` equals
`100 * differs_count / total_count` rounded to 2 decimal places with
HALF-TO-EVEN rounding (the banker's rounding of `numpy`'s `.round(2)`,
not half-up); every produced value lies in `[0, 100]`; a franchisee with
`differs_count = 0` yields exactly `0`; and every franchisee of the
dataset appears in the table (no omission, no NaN — the values are plain
rationals). -/
theorem claim_C4_pct (d : List Row) (f : PyStr)
    (hf : f ∈ d.filterMap (fun r => r.franchisee)) :
    pctSubUsed d f = round2 ((differsCount d f : ℚ) / (totalCount d f : ℚ) * 100) ∧
    0 ≤ pctSubUsed d f ∧ pctSubUsed d f ≤ 100 ∧
    (differsCount d f = 0 → pctSubUsed d f = 0) ∧
    (f, pctSubUsed d f) ∈ franchiseePctTable d := by
  have htpos : 0 < totalCount d f := totalCount_pos d f hf
  have htposQ : (0 : ℚ) < (totalCount d f : ℚ) := by exact_mod_cast htpos
  have hdle : (differsCount d f : ℚ) ≤ (totalCount d f : ℚ) := by
    exact_mod_cast differsCount_le_totalCount d f
  have hxnn : 0 ≤ (differsCount d f : ℚ) / (totalCount d f : ℚ) * 100 := by positivity
  have hxle : (differsCount d f : ℚ) / (totalCount d f : ℚ) * 100 ≤ 100 := by
    have h1 : (differsCount d f : ℚ) / (totalCount d f : ℚ) ≤ 1 :=
      (div_le_one htposQ).mpr hdle
    nlinarith
  have heq : pctSubUsed d f
      = round2 ((differsCount d f : ℚ) / (totalCount d f : ℚ) * 100) := by
    unfold pctSubUsed
    split
    · rfl
    · rename_i hany
      rw [differsCount_of_no_differs d f (Bool.eq_false_iff.mpr hany)]
      norm_num [round2, rhe_zero]
  have hzero : differsCount d f = 0 → pctSubUsed d f = 0 := by
    intro h0
    rw [heq, h0]
    norm_num [round2, rhe_zero]
  refine ⟨heq, ?_, ?_, hzero, ?_⟩
  · rw [heq]; exact round2_nonneg _ hxnn
  · rw [heq]; exact round2_le_100 _ hxle
  · unfold franchiseePctTable
    rw [(perm_sortBy _ _).mem_iff]
    exact List.mem_map_of_mem _ (mem_dedupFirst.mpr hf)

/-- Witness dataset for C4: franchisee A with one differing and one
matching record. -/
def dW4 : List Row :=
  [ ⟨some [65], some [66], some [84], none⟩,
    ⟨some [65], some [65], some [84], none⟩ ]

theorem claim_C4_pct_witness :
    pctSubUsed dW4 [65] = round2 ((differsCount dW4 [65] : ℚ) / (totalCount dW4 [65] : ℚ) * 100) ∧
    0 ≤ pctSubUsed dW4 [65] ∧ pctSubUsed dW4 [65] ≤ 100 ∧
    (differsCount dW4 [65] = 0 → pctSubUsed dW4 [65] = 0) ∧
    ([65], pctSubUsed dW4 [65]) ∈ franchiseePctTable dW4 :=
  claim_C4_pct dW4 [65] (by decide)

/-- A record of franchisee A with a differing sub client, and one with a
matching sub client. -/
def rD4 : Row := ⟨some [65], some [66], some [84], none⟩

/-- A record of franchisee A whose sub client matches. -/
def rS4 : Row := ⟨some [65], some [65], some [84], none⟩

/-- Counterexample dataset for C4: 1 differing record out of 32 gives the
exact percentage 3.125, a halfway case at 2 decimals. -/
def d32 : List Row := rD4 :: List.replicate 31 rS4

/-- C4 counterexample: at 1 differing record out of 32 the exact value is
3.125 %; the code's `.round(2)` (half-to-even) produces 3.12, while
rounding half-UP as the claim states would produce 3.13.  (All values
here are exactly representable binary floats, so the rational model
agrees with the float computation.) -/
theorem claim_C4_counterexample :
    pctSubUsed d32 [65] = 312 / 100 ∧
    roundHalfUp2 ((differsCount d32 [65] : ℚ) / (totalCount d32 [65] : ℚ) * 100) = 313 / 100 ∧
    pctSubUsed d32 [65]
      ≠ roundHalfUp2 ((differsCount d32 [65] : ℚ) / (totalCount d32 [65] : ℚ) * 100) := by
  have hd : differsCount d32 [65] = 1 := by decide
  have ht : totalCount d32 [65] = 32 := by decide
  have hany : d32.any differs = true := by decide
  have hx : ((differsCount d32 [65] : ℚ) / (totalCount d32 [65] : ℚ) * 100) = 25 / 8 := by
    rw [hd, ht]
    norm_num
  have hfloor : ⌊(25 : ℚ) / 8 * 100⌋ = 312 := by
    rw [Int.floor_eq_iff]
    norm_num
  have hrhe : rhe ((25 : ℚ) / 8 * 100) = 312 := by
    unfold rhe
    rw [hfloor]
    norm_num
  have h313 : ⌊(25 : ℚ) / 8 * 100 + 1 / 2⌋ = 313 := by
    rw [Int.floor_eq_iff]
    norm_num
  have e1 : pctSubUsed d32 [65] = 312 / 100 := by
    unfold pctSubUsed
    rw [if_pos hany, hx]
    unfold round2
    rw [hrhe]
    norm_num
  have e2 : roundHalfUp2 ((differsCount d32 [65] : ℚ) / (totalCount d32 [65] : ℚ) * 100)
      = 313 / 100 := by
    unfold roundHalfUp2
    rw [hx, h313]
    norm_num
  refine ⟨e1, e2, by rw [e1, e2]; norm_num⟩

/-! ## Lexicographic order facts, for claim C5 -/

theorem pyLt_irrefl (s : PyStr) : pyLt s s = false := by
  induction s with
  | nil => rfl
  | cons a t ih => simp [pyLt, ih]

theorem pyLt_asymm : ∀ s t : PyStr, pyLt s t = true → pyLt t s = false := by
  intro s
  induction s with
  | nil =>
    intro t h
    cases t with
    | nil => cases h
    | cons b t2 => rfl
  | cons a s2 ih =>
    intro t h
    cases t with
    | nil => cases h
    | cons b t2 =>
      simp only [pyLt] at h ⊢
      by_cases hab : a < b
      · have hba : ¬ b < a := by omega
        rw [if_neg hba, if_pos hab]
      · rw [if_neg hab] at h
        by_cases hba : b < a
        · rw [if_pos hba] at h
          cases h
        · rw [if_neg hba] at h
          rw [if_neg hba, if_neg hab]
          exact ih t2 h

/-- How many entries of the group rank strictly above `p` under the rule
"descending by count, ties by ascending name". -/
def bcount (g : List (PyStr × Nat)) (p : PyStr × Nat) : Nat :=
  (g.filter (fun q => p.2 < q.2 || (q.2 == p.2 && pyLt q.1 p.1))).length

theorem ranksAux_eq (rest : List (PyStr × Nat)) :
    ∀ seen, List.Pairwise (fun p q : PyStr × Nat => pyLt p.1 q.1 = true) rest →
      (∀ q ∈ seen, ∀ p ∈ rest, pyLt q.1 p.1 = true) →
      ranksAux seen rest
        = rest.map (fun p =>
            (p, 1 + (seen.filter (fun q => p.2 ≤ q.2)).length + bcount rest p)) := by
  induction rest with
  | nil =>
    intro seen _ _
    rfl
  | cons p rest2 ih =>
    intro seen hpw hseen
    have hpw1 : ∀ q ∈ rest2, pyLt p.1 q.1 = true := (List.pairwise_cons.mp hpw).1
    have hpw2 := (List.pairwise_cons.mp hpw).2
    simp only [ranksAux, List.map_cons]
    congr 1
    · have hb : bcount (p :: rest2) p = (rest2.filter (fun q => p.2 < q.2)).length := by
        unfold bcount
        rw [List.filter_cons]
        have hc : (decide (p.2 < p.2) || (p.2 == p.2 && pyLt p.1 p.1)) = false := by
          rw [pyLt_irrefl]
          simp
        rw [hc]
        simp only [Bool.false_eq_true, if_false]
        congr 1
        apply List.filter_congr
        intro q hq
        have hqp : pyLt q.1 p.1 = false := pyLt_asymm p.1 q.1 (hpw1 q hq)
        simp [hqp]
      rw [hb]
    · rw [ih (p :: seen) hpw2 ?_]
      · apply List.map_congr_left
        intro q hq
        have hpq : pyLt p.1 q.1 = true := hpw1 q hq
        have h1 : ((p :: seen).filter (fun x => q.2 ≤ x.2)).length
            = (if q.2 ≤ p.2 then 1 else 0) + (seen.filter (fun x => q.2 ≤ x.2)).length := by
          rw [List.filter_cons]
          by_cases h : q.2 ≤ p.2 <;> simp [h, Nat.add_comm]
        have h2 : bcount (p :: rest2) q = (if q.2 ≤ p.2 then 1 else 0) + bcount rest2 q := by
          unfold bcount
          rw [List.filter_cons]
          by_cases h : q.2 ≤ p.2
          · have hcond : (decide (q.2 < p.2) || (p.2 == q.2 && pyLt p.1 q.1)) = true := by
              rcases Nat.lt_or_eq_of_le h with hlt | heq2
              · simp [hlt]
              · simp [heq2, hpq]
            rw [hcond]
            simp [h, Nat.add_comm]
          · have hgt : p.2 < q.2 := Nat.lt_of_not_le h
            have hcond : (decide (q.2 < p.2) || (p.2 == q.2 && pyLt p.1 q.1)) = false := by
              have hne : p.2 ≠ q.2 := Nat.ne_of_lt hgt
              simp [Nat.not_lt.mpr (Nat.le_of_lt hgt), hne]
            rw [hcond]
            simp [h]
        exact congrArg (Prod.mk q) (by rw [h1, h2]; omega)
      · intro x hx y hy
        rcases List.mem_cons.mp hx with rfl | hx2
        · exact hpw1 y hy
        · exact hseen x hx2 y (List.mem_cons_of_mem p hy)

/-! ## Claim C5 -/

/-- C5 (amended): for each franchisee the table keeps exactly the entries
of that franchisee's grouped count table whose rank is at most 5, where —
because `groupby(['Franchisee', 'test name']).size()` SORTS the grouped
table by test name before `rank(method='first')` is applied — the
effective ranking is descending by count with ties broken by ASCENDING
TEST NAME, not by first-seen row order in the source data.  Stated for
any dataset whose group table for `f` is strictly name-sorted (which
`groupby` guarantees): the selection is exactly the entries beaten by
fewer than 5 others under the (count desc, name asc) order. -/
theorem filter_rank_map (g : List (PyStr × Nat)) (rk : (PyStr × Nat) → Nat) :
    ((g.map (fun p => (p, rk p))).filter (fun pr => pr.2 ≤ 5)).map (fun pr => pr.1)
      = g.filter (fun p => rk p ≤ 5) := by
  induction g with
  | nil => rfl
  | cons p g2 ih =>
    simp only [List.map_cons, List.filter_cons]
    by_cases h : rk p ≤ 5
    · simp [h, ih]
    · simp [h, ih]

theorem claim_C5_top5 (d : List Row) (f : PyStr)
    (hpw : List.Pairwise (fun p q : PyStr × Nat => pyLt p.1 q.1 = true) (groupOf d f)) :
    top_tests_per_franchisee d f
      = (groupOf d f).filter (fun p => bcount (groupOf d f) p < 5) := by
  unfold top_tests_per_franchisee
  rw [ranksAux_eq (groupOf d f) [] hpw (fun q hq => absurd hq (List.not_mem_nil q))]
  rw [filter_rank_map (groupOf d f)
    (fun p => 1 + (List.filter (fun q : PyStr × Nat => p.2 ≤ q.2) []).length
      + bcount (groupOf d f) p)]
  apply List.filter_congr
  intro p hp
  apply decide_eq_decide.mpr
  simp only [List.filter_nil, List.length_nil]
  omega

/-- Witness dataset for C5: franchisee F with six distinct tests, one
record each, uploaded in reverse alphabetical order. -/
def dW5 : List Row :=
  [ ⟨some [70], some [70], some [90], none⟩,
    ⟨some [70], some [70], some [89], none⟩,
    ⟨some [70], some [70], some [88], none⟩,
    ⟨some [70], some [70], some [87], none⟩,
    ⟨some [70], some [70], some [86], none⟩,
    ⟨some [70], some [70], some [85], none⟩ ]

theorem claim_C5_top5_witness :
    top_tests_per_franchisee dW5 [70]
      = (groupOf dW5 [70]).filter (fun p => bcount (groupOf dW5 [70]) p < 5) :=
  claim_C5_top5 dW5 [70] (by decide)

/-- C5 counterexample: six tie-count tests uploaded in the order Z, Y, X,
W, V, U.  The code's top-5 selection (name-sorted grouped table, rank
"first") keeps U, V, W, X, Y; the claim's first-seen tie-break would keep
Z, Y, X, W, V — in particular test Z (code point 90) is selected by the
claim's rule but NOT by the code. -/
theorem claim_C5_counterexample :
    top_tests_per_franchisee dW5 [70]
      = [([85], 1), ([86], 1), ([87], 1), ([88], 1), ([89], 1)] ∧
    topTestsFirstSeen dW5 [70]
      = [([90], 1), ([89], 1), ([88], 1), ([87], 1), ([86], 1)] ∧
    (([90], 1) ∈ topTestsFirstSeen dW5 [70] ∧ ([90], 1) ∉ top_tests_per_franchisee dW5 [70]) := by
  refine ⟨by decide, by decide, by decide, by decide⟩

/-! ## String normalization lemmas, for claims C6 and C10 -/

theorem lowerChar_idem (c : Nat) : lowerChar (lowerChar c) = lowerChar c := by
  unfold lowerChar
  by_cases h : 65 ≤ c ∧ c ≤ 90
  · rw [if_pos h, if_neg (by omega)]
  · rw [if_neg h, if_neg h]

theorem isSpace_lowerChar (c : Nat) : isSpace (lowerChar c) = isSpace c := by
  unfold lowerChar
  by_cases h : 65 ≤ c ∧ c ≤ 90
  · rw [if_pos h]
    have h1 : isSpace (c + 32) = false := by
      simp only [isSpace, Bool.or_eq_false_iff, beq_eq_false_iff_ne, ne_eq]
      omega
    have h2 : isSpace c = false := by
      simp only [isSpace, Bool.or_eq_false_iff, beq_eq_false_iff_ne, ne_eq]
      omega
    rw [h1, h2]
  · rw [if_neg h]

theorem dropWhile_map_lower (s : List Nat) :
    (s.map lowerChar).dropWhile isSpace = (s.dropWhile isSpace).map lowerChar := by
  induction s with
  | nil => rfl
  | cons c t ih =>
    simp only [List.map_cons, List.dropWhile_cons, isSpace_lowerChar]
    by_cases h : isSpace c = true
    · simp [h, ih]
    · simp [h]

theorem pyLower_idem (s : PyStr) : pyLower (pyLower s) = pyLower s := by
  unfold pyLower
  rw [List.map_map]
  exact List.map_congr_left (fun c _ => lowerChar_idem c)

theorem pyStrip_map_lower (s : PyStr) : pyStrip (pyLower s) = pyLower (pyStrip s) := by
  unfold pyStrip pyLower
  rw [dropWhile_map_lower, ← List.map_reverse, dropWhile_map_lower, ← List.map_reverse]

theorem dropWhile_head_not (p : Nat → Bool) (l : List Nat) :
    ∀ c ∈ (l.dropWhile p).head?, p c = false := by
  induction l with
  | nil => intro c hc; cases hc
  | cons a t ih =>
    rw [List.dropWhile_cons]
    by_cases h : p a = true
    · rw [if_pos h]
      exact ih
    · rw [if_neg h]
      intro c hc
      have hca : a = c := by simpa using hc
      rw [← hca]
      exact Bool.eq_false_iff.mpr h

theorem dropWhile_eq_self_of_head (p : Nat → Bool) (l : List Nat)
    (h : ∀ c ∈ l.head?, p c = false) : l.dropWhile p = l := by
  cases l with
  | nil => rfl
  | cons a t =>
    rw [List.dropWhile_cons, if_neg]
    rw [h a (by simp)]
    simp

theorem pyStrip_idem (s : PyStr) : pyStrip (pyStrip s) = pyStrip s := by
  unfold pyStrip
  set u := s.dropWhile isSpace with hu
  set v := u.reverse.dropWhile isSpace with hv
  have hv_head : ∀ c ∈ v.head?, isSpace c = false := dropWhile_head_not isSpace u.reverse
  have hu_head : ∀ c ∈ u.head?, isSpace c = false := dropWhile_head_not isSpace s
  have hw_drop : v.reverse.dropWhile isSpace = v.reverse := by
    apply dropWhile_eq_self_of_head
    intro c hc
    have hpre : v.reverse <+: u := by
      have hsuf : v <:+ u.reverse := List.dropWhile_suffix isSpace
      have h2 := hsuf.reverse
      rwa [List.reverse_reverse] at h2
    rcases hpre with ⟨t, ht⟩
    cases hvr : v.reverse with
    | nil => rw [hvr] at hc; cases hc
    | cons a t2 =>
      rw [hvr] at hc ht
      have hca : a = c := by simpa using hc
      have hua : u.head? = some a := by rw [← ht]; rfl
      apply hu_head c
      rw [hua, ← hca]
      rfl
  rw [hw_drop, List.reverse_reverse, dropWhile_eq_self_of_head isSpace v hv_head]

theorem normalize_idem (s : PyStr) : normalize (normalize s) = normalize s := by
  unfold normalize
  calc pyStrip (pyLower (pyStrip (pyLower s)))
      = pyStrip (pyLower (pyLower (pyStrip s))) := by rw [pyStrip_map_lower s]
    _ = pyStrip (pyLower (pyStrip s)) := by rw [pyLower_idem]
    _ = pyLower (pyStrip (pyStrip s)) := pyStrip_map_lower _
    _ = pyLower (pyStrip s) := by rw [pyStrip_idem]
    _ = pyStrip (pyLower s) := (pyStrip_map_lower s).symm

/-! ## Claim C6 -/

/-- C6: `normalize` (lower-case + trim, as the code applies them) is
idempotent, and whenever a record's franchisee and sub client names
differ only in letter case and/or leading-or-trailing whitespace (their
trimmed forms agree up to case), the record's `differs` flag is `false` —
e.g. `"ACME "` versus `"acme"`. -/
theorem claim_C6_normalize (s : PyStr) (r : Row) (f sc : PyStr)
    (hf : r.franchisee = some f) (hs : r.sub_client = some sc)
    (h : pyLower (pyStrip f) = pyLower (pyStrip sc)) :
    normalize (normalize s) = normalize s ∧ differs r = false := by
  refine ⟨normalize_idem s, ?_⟩
  unfold differs
  rw [hf, hs]
  have heq : normalize f = normalize sc := by
    unfold normalize
    rw [pyStrip_map_lower, pyStrip_map_lower, h]
  show (normalize f != normalize sc) = false
  simp [heq]

/-- C6 witness: `"ACME "` (65 67 77 69 32) versus `"acme"` (97 99 109 101)
yields `differs = false`, and idempotence holds at `" A "`. -/
theorem claim_C6_normalize_witness :
    normalize (normalize ([32, 65, 32] : PyStr)) = normalize [32, 65, 32] ∧
    differs ⟨some [65, 67, 77, 69, 32], some [97, 99, 109, 101], some [84], none⟩ = false :=
  claim_C6_normalize [32, 65, 32]
    ⟨some [65, 67, 77, 69, 32], some [97, 99, 109, 101], some [84], none⟩
    [65, 67, 77, 69, 32] [97, 99, 109, 101] rfl rfl (by decide)

/-! ## Claim C8 -/

/-- C8 (spec-modelled): invoking `filter` with an empty set of chosen test
names or an empty set of chosen franchisees fails fast with
`EmptySelectionError` — it never returns any dataset at all, so an empty
selection can neither be treated as "no filter applied" nor reach the
aggregation stage. -/
theorem claim_C8_empty_selection (d : List Row) (tn fn : List PyStr)
    (h : tn = [] ∨ fn = []) :
    filterDataset d tn fn = .error .EmptySelectionError ∧
    ∀ d2, filterDataset d tn fn ≠ .ok d2 := by
  have hcond : (tn.isEmpty || fn.isEmpty) = true := by
    rcases h with rfl | rfl <;> simp
  constructor
  · rw [filterDataset, if_pos hcond]
  · intro d2 hcontra
    rw [filterDataset, if_pos hcond] at hcontra
    exact Except.noConfusion hcontra

/-- One-row dataset for the C8 witness. -/
def dW8 : List Row := [⟨some [65], some [65], some [84], none⟩]

theorem claim_C8_empty_selection_witness :
    filterDataset dW8 [] [[65]] = .error .EmptySelectionError ∧
    ∀ d2, filterDataset dW8 [] [[65]] ≠ .ok d2 :=
  claim_C8_empty_selection dW8 [] [[65]] (Or.inl rfl)

/-! ## Claim C9 -/

/-- C9: the conversational-query collaborator receives exactly
`filtered_df.head(500)` — a prefix of the (filtered) dataset of at most
500 records, never an unbounded amount. -/
theorem claim_C9_chat_context (d : List Row) :
    chat_data_context d = d.take 500 ∧
    (chat_data_context d).length ≤ 500 ∧
    ∃ rest, chat_data_context d ++ rest = d := by
  refine ⟨rfl, ?_, ⟨d.drop 500, List.take_append_drop 500 d⟩⟩
  rw [chat_data_context, List.length_take]
  exact min_le_left _ _

/-! ## Claim C10 -/

/-- C10: for a record whose `sub_client` is absent, `astype(str)` first
renders the missing value as the literal string `"nan"`, so the record is
classified "Sub Account Used" (`differs = true`) exactly when the
normalized franchisee is not itself the string `"nan"`; an absent
sub client is never treated as equal to the franchisee name. -/
theorem claim_C10_missing_sub_client (r : Row) (h : r.sub_client = none) :
    pyStrOf r.sub_client = [110, 97, 110] ∧
    (differs r = true ↔ normalize (pyStrOf r.franchisee) ≠ [110, 97, 110]) := by
  constructor
  · rw [h]
    rfl
  · unfold differs
    rw [h]
    have hnan : normalize (pyStrOf none) = [110, 97, 110] := rfl
    rw [hnan]
    simp [bne_iff_ne]

theorem claim_C10_missing_sub_client_witness :
    pyStrOf (⟨some [65], none, some [84], none⟩ : Row).sub_client = [110, 97, 110] ∧
    (differs ⟨some [65], none, some [84], none⟩ = true ↔
      normalize (pyStrOf (⟨some [65], none, some [84], none⟩ : Row).franchisee)
        ≠ [110, 97, 110]) :=
  claim_C10_missing_sub_client ⟨some [65], none, some [84], none⟩ rfl

end ArcpointDashboard
